import Mathlib

/-!
Verification development for the pyvse repository (MarketWatch Virtual
Stock Exchange client).  The definitions below are a shallow embedding of
the rebalancing core in pyvse2.py: the Game.transaction,
Game.rebalance, Game.__updatePositions and Game.__getNumberOfSharesToInvest
methods, together with the Stock.price lookup behaviour.

Modelling choices:
- Python dicts (the Game.positions cache and the stockWeights argument)
  are insertion-ordered association lists; dictSet overwrites in place,
  dictGet returns the first binding, iteration follows list order.
- Python floats are modelled as rationals; Python int() applied to a
  nonnegative number is the floor, applied to a negative number the
  ceiling (truncation toward zero), captured by pyInt.
- A Python exception that propagates out of a method is the Res.exn
  constructor; it carries the world state at the moment the exception is
  raised (side effects already performed persist).
- The three external collaborators (quote provider, position store,
  order executor) are parameters of an Env record.  The effect of a
  successful order on the external store is applyOrder, which is
  modelled from the spec because the store itself is not part of the
  source.
-/

namespace Pyvse

abbrev Ticker := String

/-- A submitted order, as posted by Game.transaction:
ticker, share count, action string. -/
abbrev Tx := Ticker × ℤ × String

/-- STOCK_ACTIONS from pyvse2.py. -/
def STOCK_ACTIONS : List String := ["Buy", "Sell", "Short", "Cover"]

/-- Python dict lookup: first binding for the key, if any. -/
def dictGet {α : Type} : List (Ticker × α) → Ticker → Option α
  | [], _ => none
  | (k, v) :: rest, t => if k = t then some v else dictGet rest t

/-- Python dict membership test. -/
def dictContains {α : Type} (d : List (Ticker × α)) (t : Ticker) : Bool :=
  (dictGet d t).isSome

/-- Python dict assignment: overwrite in place if the key is present,
otherwise append at the end (insertion order). -/
def dictSet {α : Type} : List (Ticker × α) → Ticker → α → List (Ticker × α)
  | [], t, v => [(t, v)]
  | (k, w) :: rest, t, v =>
      if k = t then (k, v) :: rest else (k, w) :: dictSet rest t v

/-- Python dict key deletion (keys are unique in a dict). -/
def dictRemove {α : Type} : List (Ticker × α) → Ticker → List (Ticker × α)
  | [], _ => []
  | (k, v) :: rest, t => if k = t then rest else (k, v) :: dictRemove rest t

/-- Iteration order of a Python dict: its keys in insertion order. -/
def dictKeys {α : Type} (d : List (Ticker × α)) : List Ticker :=
  d.map Prod.fst

/-- Python int() applied to a float: truncation toward zero.  On an
exact rational in lowest terms this is the truncating division of the
numerator by the denominator. -/
def pyInt (q : ℚ) : ℤ := Int.tdiv q.num q.den

/-- Outcome of scraping the holdings page in Game.__updatePositions:
either the HTTP request itself raises (the exception propagates, nothing
in the method catches it), or the response parses to no holdings table
(the AttributeError branch, treated as zero rows), or a list of rows
(ticker, signed share count). -/
inductive ReadResult where
  | connError : ReadResult
  | noTable : ReadResult
  | rows : List (Ticker × ℤ) → ReadResult

/-- The external collaborators consumed by Game: quote provider
(price, none when no price resolves), portfolio value, order executor
verdict for the n-th submitted order, and the position-store read as a
function of the store contents. -/
structure Env where
  price : Ticker → Option ℚ
  value : ℚ
  ok : ℕ → Bool
  read : List (Ticker × ℤ) → ReadResult

/-- The evolving state: the true store contents (external), the
Game.positions cache, and the list of orders submitted so far. -/
structure World where
  holdings : List (Ticker × ℤ)
  cache : List (Ticker × ℤ)
  log : List Tx
  deriving DecidableEq

/-- Result of running a method body: normal return or a propagating
exception, each carrying the state at that point. -/
inductive Res where
  | ok : World → Res
  | exn : World → Res
  deriving DecidableEq

/-- The state carried by either outcome. -/
def Res.world : Res → World
  | Res.ok w => w
  | Res.exn w => w

/-- Sequencing: an exception skips the continuation. -/
def Res.bind : Res → (World → Res) → Res
  | Res.ok w, f => f w
  | Res.exn w, _ => Res.exn w

def Res.isExn : Res → Bool
  | Res.ok _ => false
  | Res.exn _ => true

/-- The row loop of Game.__updatePositions: each scraped row overwrites
the cache entry for its ticker; rows absent from the page are left in
the cache untouched (the method never deletes entries). -/
def updatePositionsRows (rows : List (Ticker × ℤ)) (c : List (Ticker × ℤ)) :
    List (Ticker × ℤ) :=
  rows.foldl (fun acc r => dictSet acc r.1 r.2) c

/-- Game.__updatePositions: scrape the holdings page; a transport error
propagates, a missing table is treated as zero rows, otherwise fold the
rows into the cache. -/
def updatePositions (env : Env) (w : World) : Res :=
  match env.read w.holdings with
  | ReadResult.connError => Res.exn w
  | ReadResult.noTable => Res.ok w
  | ReadResult.rows rs => Res.ok { w with cache := updatePositionsRows rs w.cache }

/-- Modelled from the spec: the external Position Store, which the
source only consumes.  A successful order changes the stored signed
share count of its ticker (positive is long, negative is short): Buy and
Cover increase it by the share count, Sell and Short decrease it; a
position whose signed count returns to zero is destroyed (removed). -/
def applyOrder (h : List (Ticker × ℤ)) (t : Ticker) (q : ℤ) (a : String) :
    List (Ticker × ℤ) :=
  let delta : ℤ := if a = "Buy" ∨ a = "Cover" then q else -q
  let n : ℤ := (dictGet h t).getD 0 + delta
  if n = 0 then dictRemove h t else dictSet h t n

/-- Game.transaction: an action outside STOCK_ACTIONS returns without
submitting anything; otherwise the order is posted; on a reported
failure the method returns (no refresh); on success the store has been
mutated and Game.__updatePositions refreshes the cache. -/
def transaction (env : Env) (w : World) (t : Ticker) (q : ℤ) (a : String) : Res :=
  if a ∈ STOCK_ACTIONS then
    let w1 : World := { w with log := w.log ++ [(t, q, a)] }
    if env.ok w.log.length then
      updatePositions env { w1 with holdings := applyOrder w.holdings t q a }
    else
      Res.ok w1
  else
    Res.ok w

/-- Game.__getNumberOfSharesToInvest: look up the price and truncate
dollars divided by price to an integer with int().  A price that does
not resolve raises (Stock.price falls into a fallback method that does
not exist), so the caller sees no share count. -/
def getNumberOfSharesToInvest (env : Env) (t : Ticker) (money : ℚ) : Option ℤ :=
  match env.price t with
  | none => none
  | some p => some (pyInt (money / p))

/-- The action-and-quantity resolution inlined in the adjust loop of
Game.rebalance, extracted as the pure function the spec calls
resolveAction. -/
def resolveAction (current desired : ℤ) : String × ℤ :=
  (if current < 0 then
     (if desired > current then "Cover" else "Short")
   else
     (if desired > current then "Buy" else "Sell"),
   |current - desired|)

/-- One ticker of the fresh-portfolio loop and of the entry loop:
look up the weight, size the position, submit a Buy. -/
def buyTicker (env : Env) (value : ℚ) (targets : List (Ticker × ℚ))
    (w : World) (t : Ticker) : Res :=
  match dictGet targets t with
  | none => Res.exn w
  | some weight =>
      match getNumberOfSharesToInvest env t (weight * value) with
      | none => Res.exn w
      | some n => transaction env w t n "Buy"

/-- One ticker of the exit loop of Game.rebalance: a held ticker absent
from the targets is fully closed, Sell if long else Cover, with the
absolute share count. -/
def exitBody (env : Env) (targets : List (Ticker × ℚ))
    (w : World) (t : Ticker) : Res :=
  if dictContains targets t then Res.ok w
  else
    match dictGet w.cache t with
    | none => Res.exn w
    | some n => transaction env w t |n| (if n > 0 then "Sell" else "Cover")

/-- One ticker of the adjust loop of Game.rebalance: for a ticker both
held and targeted, size the desired position, read the current signed
count from the live cache, resolve the action, and submit it (the source
submits unconditionally, with no zero-quantity check). -/
def adjustBody (env : Env) (value : ℚ) (targets : List (Ticker × ℚ))
    (w : World) (t : Ticker) : Res :=
  if dictContains targets t then
    match dictGet targets t with
    | none => Res.exn w
    | some weight =>
        match getNumberOfSharesToInvest env t (weight * value) with
        | none => Res.exn w
        | some desired =>
            match dictGet w.cache t with
            | none => Res.exn w
            | some current =>
                transaction env w t (resolveAction current desired).2
                  (resolveAction current desired).1
  else Res.ok w

/-- One ticker of the entry loop: targets not held (per the snapshot of
owned tickers taken after the phase-2 refresh) are bought. -/
def entryBody (env : Env) (value : ℚ) (targets : List (Ticker × ℚ))
    (owned : List Ticker) (w : World) (t : Ticker) : Res :=
  if owned.contains t then Res.ok w
  else buyTicker env value targets w t

/-- A Python for-loop whose body may raise: the first exception stops
the loop and propagates. -/
def foldW (f : World → Ticker → Res) : List Ticker → World → Res
  | [], w => Res.ok w
  | t :: ts, w =>
      match f w t with
      | Res.ok w1 => foldW f ts w1
      | Res.exn w1 => Res.exn w1

/-- Exit phase: iterate the snapshot of owned tickers. -/
def exitPhase (env : Env) (targets : List (Ticker × ℚ)) (w : World) : Res :=
  foldW (exitBody env targets) (dictKeys w.cache) w

/-- Adjust phase: iterate the (re-read) snapshot of owned tickers. -/
def adjustPhase (env : Env) (value : ℚ) (targets : List (Ticker × ℚ))
    (w : World) : Res :=
  foldW (adjustBody env value targets) (dictKeys w.cache) w

/-- Entry phase: iterate the target tickers against the snapshot of
owned tickers taken when the phase starts. -/
def entryPhase (env : Env) (value : ℚ) (targets : List (Ticker × ℚ))
    (w : World) : Res :=
  foldW (entryBody env value targets (dictKeys w.cache)) (dictKeys targets) w

/-- Game.rebalance: refresh, read the portfolio value, then either the
fresh-portfolio loop (empty cache) or the exit, adjust and entry phases
with a refresh between each, and a final refresh at the end. -/
def rebalance (env : Env) (targets : List (Ticker × ℚ)) (w0 : World) : Res :=
  Res.bind (updatePositions env w0) (fun w1 =>
    Res.bind
      (if w1.cache.length = 0 then
        foldW (buyTicker env env.value targets) (dictKeys targets) w1
      else
        Res.bind (exitPhase env targets w1) (fun w2 =>
          Res.bind (updatePositions env w2) (fun w3 =>
            Res.bind (adjustPhase env env.value targets w3) (fun w4 =>
              Res.bind (updatePositions env w4) (fun w5 =>
                entryPhase env env.value targets w5)))))
      (fun w6 => updatePositions env w6))

/-! Concrete scenarios used by the theorems below. -/

/-- Environment for the ordering example: every price is 10, the
portfolio is worth 1000, every order succeeds, the store reads cleanly. -/
def envC2 : Env := ⟨fun _ => some 10, 1000, fun _ => true, ReadResult.rows⟩

def targetsC2 : List (Ticker × ℚ) := [("A", 1/2), ("C", 3/10)]

def wC2 : World := ⟨[("A", 10), ("B", -5)], [("A", 10), ("B", -5)], []⟩

/-- Environment with a quote of 7 for every ticker. -/
def env3 : Env := ⟨fun _ => some 7, 1000, fun _ => true, ReadResult.rows⟩

def env4 : Env := ⟨fun _ => some 10, 1000, fun _ => true, ReadResult.rows⟩

def targets4 : List (Ticker × ℚ) := [("X", 7/100)]

def w4 : World := ⟨[("X", 7)], [], []⟩

def env5 : Env := ⟨fun _ => some 10, 1000, fun _ => true, ReadResult.rows⟩

def targets5 : List (Ticker × ℚ) := [("A", 1)]

def w5 : World := ⟨[("B", -5)], [], []⟩

def env6 : Env := ⟨fun _ => some 7, 1000, fun _ => true, ReadResult.rows⟩

def targets6 : List (Ticker × ℚ) := [("X", 1)]

/-- Environment whose holdings page never shows a table. -/
def env7 : Env := ⟨fun _ => some 10, 1000, fun _ => true, fun _ => ReadResult.noTable⟩

def targets7 : List (Ticker × ℚ) := [("X", 1)]

def w7 : World := ⟨[("Y", 3)], [], []⟩

/-- Environment whose holdings request always raises. -/
def env7a : Env := ⟨fun _ => some 10, 1000, fun _ => true, fun _ => ReadResult.connError⟩

/-- Environment in which no price resolves for X. -/
def env8 : Env :=
  ⟨fun t => if t = "Y" then some 10 else none, 1000, fun _ => true, ReadResult.rows⟩

def targets8 : List (Ticker × ℚ) := [("X", 1/2), ("Y", 1/2)]

/-- Environment in which no price resolves for Y. -/
def env8w : Env :=
  ⟨fun t => if t = "Y" then none else some 10, 1000, fun _ => true, ReadResult.rows⟩

def env9 : Env := ⟨fun _ => some 10, 1000, fun _ => true, ReadResult.rows⟩

def w9 : World := ⟨[("B", -5)], [("B", -5)], []⟩

def emptyWorld : World := ⟨[], [], []⟩

/-- Environment whose order executor reports failure for every order. -/
def envOkFalse : Env := ⟨fun _ => some 10, 1000, fun _ => false, ReadResult.rows⟩

/-! Helper lemmas. -/

theorem updatePositions_log (env : Env) (w : World) :
    (updatePositions env w).world.log = w.log := by
  unfold updatePositions
  cases env.read w.holdings <;> rfl

theorem transaction_log (env : Env) (w : World) (t : Ticker) (q : ℤ) (a : String)
    (ha : a ∈ STOCK_ACTIONS) :
    (transaction env w t q a).world.log = w.log ++ [(t, q, a)] := by
  unfold transaction
  rw [if_pos ha]
  cases hok : env.ok w.log.length
  · simp [Res.world]
  · simpa using updatePositions_log env _

theorem transaction_not_action (env : Env) (w : World) (t : Ticker) (q : ℤ)
    (a : String) (ha : a ∉ STOCK_ACTIONS) :
    transaction env w t q a = Res.ok w := by
  unfold transaction
  rw [if_neg ha]

theorem transaction_no_exn (env : Env) (w : World) (t : Ticker) (q : ℤ) (a : String)
    (hr : ∀ v, env.read v = ReadResult.rows v ∨ env.read v = ReadResult.noTable)
    (ha : a ∈ STOCK_ACTIONS) :
    ∃ w1, transaction env w t q a = Res.ok w1 ∧ w1.log = w.log ++ [(t, q, a)] := by
  unfold transaction
  rw [if_pos ha]
  cases hok : env.ok w.log.length
  · simp
  · simp only [if_pos rfl]
    unfold updatePositions
    rcases hr (applyOrder w.holdings t q a) with h | h <;> simp [h]

theorem resolveAction_fst_mem (c d : ℤ) : (resolveAction c d).1 ∈ STOCK_ACTIONS := by
  unfold resolveAction STOCK_ACTIONS
  split_ifs <;> simp

theorem pyInt_eq_floor (q : ℚ) (h : 0 ≤ q) : pyInt q = ⌊q⌋ := by
  rw [pyInt, Rat.floor_def]
  exact Int.tdiv_eq_ediv (by exact_mod_cast Rat.num_nonneg.mpr h) (Int.ofNat_nonneg _)

theorem dictGet_of_mem_nodup {α : Type} (d : List (Ticker × α)) (x : Ticker × α)
    (hnd : (dictKeys d).Nodup) (hx : x ∈ d) : dictGet d x.1 = some x.2 := by
  induction d with
  | nil => cases hx
  | cons y ys ih =>
      have hnd1 : (dictKeys ys).Nodup := by
        simpa [dictKeys] using (List.nodup_cons.mp (by simpa [dictKeys] using hnd)).2
      rcases List.mem_cons.mp hx with h | h
      · subst h
        simp [dictGet]
      · have hy : ¬ y.1 = x.1 := by
          intro he
          have hmem : x.1 ∈ dictKeys ys := List.mem_map_of_mem Prod.fst h
          rw [← he] at hmem
          exact (List.nodup_cons.mp (by simpa [dictKeys] using hnd)).1 hmem
        simpa [dictGet, hy] using ih hnd1 h

theorem dictContains_of_get {α : Type} (d : List (Ticker × α)) (t : Ticker)
    (v : α) (h : dictGet d t = some v) : dictContains d t = true := by
  simp [dictContains, h]

theorem foldW_log (f : World → Ticker → Res) (P : Ticker → Tx → Prop)
    (hf : ∀ w t, ∃ δ, (f w t).world.log = w.log ++ δ ∧ ∀ o ∈ δ, P t o) :
    ∀ (ks : List Ticker) (w : World),
      ∃ Δ, (foldW f ks w).world.log = w.log ++ Δ ∧ ∀ o ∈ Δ, ∃ t ∈ ks, P t o := by
  intro ks
  induction ks with
  | nil =>
      intro w
      exact ⟨[], by simp [foldW, Res.world], by simp⟩
  | cons t ts ih =>
      intro w
      obtain ⟨δ, hδ, hPδ⟩ := hf w t
      cases hft : f w t with
      | ok w1 =>
          obtain ⟨Δ, hΔ, hPΔ⟩ := ih w1
          have hw1 : w1.log = w.log ++ δ := by rw [hft] at hδ; exact hδ
          refine ⟨δ ++ Δ, ?_, ?_⟩
          · simp only [foldW, hft]
            rw [hΔ, hw1, List.append_assoc]
          · intro o ho
            rcases List.mem_append.mp ho with h | h
            · exact ⟨t, List.mem_cons_self t ts, hPδ o h⟩
            · obtain ⟨t1, ht1, hp⟩ := hPΔ o h
              exact ⟨t1, List.mem_cons_of_mem t ht1, hp⟩
      | exn w1 =>
          refine ⟨δ, ?_, fun o ho => ⟨t, List.mem_cons_self t ts, hPδ o ho⟩⟩
          simp only [foldW, hft]
          rw [hft] at hδ
          exact hδ

theorem foldW_append (f : World → Ticker → Res) (xs ys : List Ticker) (w : World) :
    foldW f (xs ++ ys) w = Res.bind (foldW f xs w) (foldW f ys) := by
  induction xs generalizing w with
  | nil => simp [foldW, Res.bind]
  | cons t ts ih =>
      simp only [List.cons_append, foldW]
      cases f w t with
      | ok w1 => exact ih w1
      | exn w1 => rfl

theorem exitBody_log (env : Env) (targets : List (Ticker × ℚ)) (w : World)
    (t : Ticker) :
    ∃ δ, (exitBody env targets w t).world.log = w.log ++ δ ∧
      ∀ o ∈ δ, dictContains targets o.1 = false ∧
        ∃ s : ℤ, o.2.1 = |s| ∧ o.2.2 = (if s > 0 then "Sell" else "Cover") := by
  unfold exitBody
  cases hct : dictContains targets t
  · simp only [Bool.false_eq_true, if_false]
    cases hg : dictGet w.cache t with
    | none => exact ⟨[], by simp [Res.world], by simp⟩
    | some n =>
        have hmem : (if n > 0 then "Sell" else "Cover") ∈ STOCK_ACTIONS := by
          split <;> simp [STOCK_ACTIONS]
        refine ⟨[(t, |n|, if n > 0 then "Sell" else "Cover")],
          transaction_log env w t _ _ hmem, ?_⟩
        intro o ho
        rw [List.mem_singleton] at ho
        subst ho
        exact ⟨hct, n, rfl, rfl⟩
  · simp only [if_true]
    exact ⟨[], by simp [Res.world], by simp⟩

theorem adjustBody_log (env : Env) (value : ℚ) (targets : List (Ticker × ℚ))
    (w : World) (t : Ticker) :
    ∃ δ, (adjustBody env value targets w t).world.log = w.log ++ δ ∧
      ∀ o ∈ δ, dictContains targets o.1 = true := by
  unfold adjustBody
  cases hct : dictContains targets t
  · simp only [Bool.false_eq_true, if_false]
    exact ⟨[], by simp [Res.world], by simp⟩
  · simp only [if_true]
    cases hg : dictGet targets t with
    | none => exact ⟨[], by simp [Res.world], by simp⟩
    | some weight =>
        cases hn : getNumberOfSharesToInvest env t (weight * value) with
        | none => exact ⟨[], by simp [hn, Res.world], by simp⟩
        | some desired =>
            cases hcur : dictGet w.cache t with
            | none => exact ⟨[], by simp [hn, hcur, Res.world], by simp⟩
            | some current =>
                refine ⟨[(t, (resolveAction current desired).2,
                  (resolveAction current desired).1)], ?_, ?_⟩
                · simp only [hn, hcur]
                  exact transaction_log env w t _ _ (resolveAction_fst_mem current desired)
                · intro o ho
                  rw [List.mem_singleton] at ho
                  subst ho
                  exact hct

theorem buyTicker_log (env : Env) (value : ℚ) (targets : List (Ticker × ℚ))
    (w : World) (t : Ticker) :
    ∃ δ, (buyTicker env value targets w t).world.log = w.log ++ δ ∧
      ∀ o ∈ δ, dictContains targets o.1 = true ∧ o.2.2 = "Buy" := by
  unfold buyTicker
  cases hg : dictGet targets t with
  | none => exact ⟨[], by simp [Res.world], by simp⟩
  | some weight =>
      cases hn : getNumberOfSharesToInvest env t (weight * value) with
      | none => exact ⟨[], by simp [hn, Res.world], by simp⟩
      | some n =>
          refine ⟨[(t, n, "Buy")], ?_, ?_⟩
          · simp only [hn]
            exact transaction_log env w t _ _ (by simp [STOCK_ACTIONS])
          · intro o ho
            rw [List.mem_singleton] at ho
            subst ho
            exact ⟨dictContains_of_get targets t weight hg, rfl⟩

theorem entryBody_log (env : Env) (value : ℚ) (targets : List (Ticker × ℚ))
    (owned : List Ticker) (w : World) (t : Ticker) :
    ∃ δ, (entryBody env value targets owned w t).world.log = w.log ++ δ ∧
      ∀ o ∈ δ, dictContains targets o.1 = true ∧ o.2.2 = "Buy" := by
  unfold entryBody
  cases hc : owned.contains t
  · simp only [Bool.false_eq_true, if_false]
    exact buyTicker_log env value targets w t
  · simp only [if_true]
    exact ⟨[], by simp [Res.world], by simp⟩

theorem buyTicker_ok (env : Env) (targets : List (Ticker × ℚ)) (w : World)
    (t : Ticker) (wt p : ℚ)
    (hr : ∀ v, env.read v = ReadResult.rows v ∨ env.read v = ReadResult.noTable)
    (hg : dictGet targets t = some wt)
    (hp : env.price t = some p) (hpos : 0 < p) (hm : 0 ≤ wt * env.value) :
    ∃ w1, buyTicker env env.value targets w t = Res.ok w1 ∧
      w1.log = w.log ++ [(t, ⌊wt * env.value / p⌋, "Buy")] := by
  obtain ⟨w1, hw1, hlog⟩ := transaction_no_exn env w t ⌊wt * env.value / p⌋ "Buy"
    hr (by simp [STOCK_ACTIONS])
  refine ⟨w1, ?_, hlog⟩
  unfold buyTicker
  rw [hg]
  show (match getNumberOfSharesToInvest env t (wt * env.value) with
    | none => Res.exn w
    | some n => transaction env w t n "Buy") = Res.ok w1
  unfold getNumberOfSharesToInvest
  rw [hp]
  show transaction env w t (pyInt (wt * env.value / p)) "Buy" = Res.ok w1
  rw [pyInt_eq_floor _ (div_nonneg hm hpos.le)]
  exact hw1

theorem buyFold_ok (env : Env) (targets : List (Ticker × ℚ)) (P : Ticker → ℚ)
    (hr : ∀ v, env.read v = ReadResult.rows v ∨ env.read v = ReadResult.noTable) :
    ∀ (ts : List (Ticker × ℚ)) (w : World),
      (∀ x ∈ ts, dictGet targets x.1 = some x.2 ∧ env.price x.1 = some (P x.1) ∧
        0 < P x.1 ∧ 0 ≤ x.2 * env.value) →
      ∃ w1, foldW (buyTicker env env.value targets) (dictKeys ts) w = Res.ok w1 ∧
        w1.log = w.log ++ ts.map (fun x => (x.1, ⌊x.2 * env.value / P x.1⌋, "Buy")) := by
  intro ts
  induction ts with
  | nil =>
      intro w _
      exact ⟨w, rfl, by simp⟩
  | cons x rest ih =>
      intro w h
      obtain ⟨hg, hp, hpos, hm⟩ := h x (List.mem_cons_self x rest)
      obtain ⟨w1, hbt, hlog1⟩ := buyTicker_ok env targets w x.1 x.2 (P x.1) hr hg hp hpos hm
      obtain ⟨w2, hfold, hlog2⟩ := ih w1 (fun y hy => h y (List.mem_cons_of_mem x hy))
      refine ⟨w2, ?_, ?_⟩
      · show foldW (buyTicker env env.value targets) (x.1 :: dictKeys rest) w = Res.ok w2
        simp only [foldW, hbt]
        exact hfold
      · rw [hlog2, hlog1]
        simp

theorem rebalance_fresh_log (env : Env) (targets : List (Ticker × ℚ))
    (w : World) (P : Ticker → ℚ)
    (hr : ∀ v, env.read v = ReadResult.rows v ∨ env.read v = ReadResult.noTable)
    (hnd : (dictKeys targets).Nodup)
    (hP : ∀ x ∈ targets, env.price x.1 = some (P x.1) ∧ 0 < P x.1 ∧
      0 ≤ x.2 * env.value)
    (hc : (updatePositions env w).world.cache = []) :
    (rebalance env targets w).world.log =
      w.log ++ targets.map (fun x => (x.1, ⌊x.2 * env.value / P x.1⌋, "Buy")) := by
  have hup : ∃ w1, updatePositions env w = Res.ok w1 ∧ w1.log = w.log ∧
      w1.cache = [] := by
    have hcc := hc
    unfold updatePositions at hcc ⊢
    rcases hr w.holdings with h | h <;> rw [h] at hcc ⊢
    · exact ⟨_, rfl, rfl, hcc⟩
    · exact ⟨_, rfl, rfl, hcc⟩
  obtain ⟨w1, h1, hlog1, hc1⟩ := hup
  obtain ⟨w2, h2, hlog2⟩ := buyFold_ok env targets P hr targets w1 (fun x hx =>
    ⟨dictGet_of_mem_nodup targets x hnd hx, (hP x hx).1, (hP x hx).2.1,
      (hP x hx).2.2⟩)
  unfold rebalance
  rw [h1]
  simp only [Res.bind]
  rw [if_pos (by rw [hc1]; rfl), h2]
  simp only [Res.bind]
  rw [updatePositions_log, hlog2, hlog1]

/-! Claim theorems. -/

/-- C1: for every pair of current and desired signed share counts, the
adjust-phase action resolution returns exactly one action from
STOCK_ACTIONS with quantity the absolute difference, following the
branch table (short: Cover if desired exceeds current, else Short;
otherwise Buy if desired exceeds current, else Sell); in particular
current -10 and desired 5 resolve to Cover 15. -/
theorem c1_resolveAction (c d : ℤ) :
    (resolveAction c d).1 ∈ STOCK_ACTIONS ∧
    (resolveAction c d).2 = |c - d| ∧
    (resolveAction c d).1 =
      (if c < 0 then (if d > c then "Cover" else "Short")
       else (if d > c then "Buy" else "Sell")) ∧
    resolveAction (-10) 5 = ("Cover", 15) :=
  ⟨resolveAction_fst_mem c d, rfl, rfl, by with_unfolding_all decide⟩

/-- C2: orders are issued in strict phase order.  For every rebalance
call, the submitted order log decomposes into the exit-phase segment
(each order closes a ticker absent from the targets: quantity the
absolute value of some signed count, Sell if that count is positive else
Cover), then the adjust-phase segment (tickers present in the targets),
then the entry-phase segment (tickers in the targets, all Buys).
Concretely, with positions A:+10 and B:-5 and targets A:1/2, C:3/10, the
full log is Cover 5 B, then Buy 40 A, then Buy 30 C: the first submitted
order is a Cover of 5 shares of B, before any order touching A or C. -/
theorem c2_phase_order :
    (∀ (env : Env) (targets : List (Ticker × ℚ)) (w0 : World),
      ∃ e a n, (rebalance env targets w0).world.log = w0.log ++ (e ++ (a ++ n)) ∧
        (∀ o ∈ e, dictContains targets o.1 = false ∧
          ∃ s : ℤ, o.2.1 = |s| ∧ o.2.2 = (if s > 0 then "Sell" else "Cover")) ∧
        (∀ o ∈ a, dictContains targets o.1 = true) ∧
        (∀ o ∈ n, dictContains targets o.1 = true ∧ o.2.2 = "Buy")) ∧
    (rebalance envC2 targetsC2 wC2).world.log =
      [("B", 5, "Cover"), ("A", 40, "Buy"), ("C", 30, "Buy")] := by
  constructor
  · intro env targets w0
    cases h0 : updatePositions env w0 with
    | exn w =>
        have hw : w.log = w0.log := by
          have h := updatePositions_log env w0
          rw [h0] at h
          exact h
        refine ⟨[], [], [], ?_, by simp, by simp, by simp⟩
        unfold rebalance
        rw [h0]
        simp only [Res.bind, Res.world]
        simpa using hw
    | ok w1 =>
        have hw1 : w1.log = w0.log := by
          have h := updatePositions_log env w0
          rw [h0] at h
          exact h
        by_cases hcache : w1.cache.length = 0
        · obtain ⟨N, hN, hPN⟩ := foldW_log (buyTicker env env.value targets)
            (fun _ o => dictContains targets o.1 = true ∧ o.2.2 = "Buy")
            (fun w t => buyTicker_log env env.value targets w t) (dictKeys targets) w1
          have hPN' : ∀ o ∈ N, dictContains targets o.1 = true ∧ o.2.2 = "Buy" := by
            intro o ho
            obtain ⟨t, -, hp⟩ := hPN o ho
            exact hp
          refine ⟨[], [], N, ?_, by simp, by simp, hPN'⟩
          unfold rebalance
          rw [h0]
          simp only [Res.bind]
          rw [if_pos hcache]
          cases hF : foldW (buyTicker env env.value targets) (dictKeys targets) w1 with
          | ok w6 =>
              rw [hF] at hN
              simp only [Res.world] at hN
              simp only [Res.bind]
              rw [updatePositions_log env w6, hN, hw1]
              simp
          | exn w6 =>
              rw [hF] at hN
              simp only [Res.world] at hN
              simp only [Res.bind, Res.world]
              rw [hN, hw1]
              simp
        · obtain ⟨E, hE, hPE⟩ := foldW_log (exitBody env targets)
            (fun _ o => dictContains targets o.1 = false ∧
              ∃ s : ℤ, o.2.1 = |s| ∧ o.2.2 = (if s > 0 then "Sell" else "Cover"))
            (fun w t => exitBody_log env targets w t) (dictKeys w1.cache) w1
          have hPE' : ∀ o ∈ E, dictContains targets o.1 = false ∧
              ∃ s : ℤ, o.2.1 = |s| ∧ o.2.2 = (if s > 0 then "Sell" else "Cover") := by
            intro o ho
            obtain ⟨t, -, hp⟩ := hPE o ho
            exact hp
          unfold rebalance
          rw [h0]
          simp only [Res.bind]
          rw [if_neg hcache]
          simp only [exitPhase, adjustPhase, entryPhase]
          cases hEx : foldW (exitBody env targets) (dictKeys w1.cache) w1 with
          | exn w2 =>
              rw [hEx] at hE
              simp only [Res.world] at hE
              refine ⟨E, [], [], ?_, hPE', by simp, by simp⟩
              simp only [Res.bind, Res.world]
              rw [hE, hw1]
              simp
          | ok w2 =>
              rw [hEx] at hE
              simp only [Res.world] at hE
              simp only [Res.bind]
              cases h2 : updatePositions env w2 with
              | exn w3 =>
                  have h2l := updatePositions_log env w2
                  rw [h2] at h2l
                  simp only [Res.world] at h2l
                  refine ⟨E, [], [], ?_, hPE', by simp, by simp⟩
                  simp only [Res.bind, Res.world]
                  rw [h2l, hE, hw1]
                  simp
              | ok w3 =>
                  have h2l := updatePositions_log env w2
                  rw [h2] at h2l
                  simp only [Res.world] at h2l
                  obtain ⟨A, hA, hPA⟩ := foldW_log (adjustBody env env.value targets)
                    (fun _ o => dictContains targets o.1 = true)
                    (fun w t => adjustBody_log env env.value targets w t)
                    (dictKeys w3.cache) w3
                  have hPA' : ∀ o ∈ A, dictContains targets o.1 = true := by
                    intro o ho
                    obtain ⟨t, -, hp⟩ := hPA o ho
                    exact hp
                  simp only [Res.bind]
                  cases hAd : foldW (adjustBody env env.value targets)
                      (dictKeys w3.cache) w3 with
                  | exn w4 =>
                      rw [hAd] at hA
                      simp only [Res.world] at hA
                      refine ⟨E, A, [], ?_, hPE', hPA', by simp⟩
                      simp only [Res.bind, Res.world]
                      rw [hA, h2l, hE, hw1]
                      simp
                  | ok w4 =>
                      rw [hAd] at hA
                      simp only [Res.world] at hA
                      simp only [Res.bind]
                      cases h4 : updatePositions env w4 with
                      | exn w5 =>
                          have h4l := updatePositions_log env w4
                          rw [h4] at h4l
                          simp only [Res.world] at h4l
                          refine ⟨E, A, [], ?_, hPE', hPA', by simp⟩
                          simp only [Res.bind, Res.world]
                          rw [h4l, hA, h2l, hE, hw1]
                          simp
                      | ok w5 =>
                          have h4l := updatePositions_log env w4
                          rw [h4] at h4l
                          simp only [Res.world] at h4l
                          obtain ⟨N, hN, hPN⟩ := foldW_log
                            (entryBody env env.value targets (dictKeys w5.cache))
                            (fun _ o => dictContains targets o.1 = true ∧ o.2.2 = "Buy")
                            (fun w t => entryBody_log env env.value targets
                              (dictKeys w5.cache) w t)
                            (dictKeys targets) w5
                          have hPN' : ∀ o ∈ N, dictContains targets o.1 = true ∧
                              o.2.2 = "Buy" := by
                            intro o ho
                            obtain ⟨t, -, hp⟩ := hPN o ho
                            exact hp
                          simp only [Res.bind]
                          cases hEn : foldW
                              (entryBody env env.value targets (dictKeys w5.cache))
                              (dictKeys targets) w5 with
                          | exn w6 =>
                              rw [hEn] at hN
                              simp only [Res.world] at hN
                              refine ⟨E, A, N, ?_, hPE', hPA', hPN'⟩
                              simp only [Res.bind, Res.world]
                              rw [hN, h4l, hA, h2l, hE, hw1]
                              simp
                          | ok w6 =>
                              rw [hEn] at hN
                              simp only [Res.world] at hN
                              refine ⟨E, A, N, ?_, hPE', hPA', hPN'⟩
                              simp only [Res.bind]
                              rw [updatePositions_log env w6, hN, h4l, hA, h2l, hE, hw1]
                              simp
  · with_unfolding_all decide

/-- C3 (counterexample): the share sizing is not the floor.  With price 7
and a dollar amount of -50 (target weight -1/20 of a 1000 portfolio, a
short target), the code computes int(-50/7) = -7, while the floor is -8;
the computation truncates toward zero (the ceiling, -7). -/
theorem c3_counterexample :
    ¬ getNumberOfSharesToInvest env3 "X" (-50) = some ⌊(-50 : ℚ) / 7⌋ ∧
    getNumberOfSharesToInvest env3 "X" (-50) = some (-7) ∧
    ⌊(-50 : ℚ) / 7⌋ = -8 ∧ ⌈(-50 : ℚ) / 7⌉ = -7 := by
  have hf : ⌊(-50 : ℚ) / 7⌋ = (-8 : ℤ) := by norm_num
  have hv : getNumberOfSharesToInvest env3 "X" (-50) = some (-7) := by
    with_unfolding_all decide
  refine ⟨?_, hv, hf, ?_⟩
  · rw [hv, hf]
    simp
  · rw [neg_div, Int.ceil_neg]
    norm_num

/-- C3 (amended): for a positive price and a nonnegative dollar amount,
the desired share count equals the floor of dollars divided by price,
is never rounded up, and the dollars spent never exceed the dollar
amount; for a negative dollar amount the code truncates toward zero
rather than flooring. -/
theorem c3_amended (env : Env) (t : Ticker) (p money : ℚ)
    (hp : env.price t = some p) (hpos : 0 < p) (hm : 0 ≤ money) :
    getNumberOfSharesToInvest env t money = some ⌊money / p⌋ ∧
    (⌊money / p⌋ : ℚ) * p ≤ money ∧ (⌊money / p⌋ : ℚ) ≤ money / p := by
  have hq : 0 ≤ money / p := div_nonneg hm hpos.le
  have h1 : (⌊money / p⌋ : ℚ) ≤ money / p := Int.floor_le _
  refine ⟨?_, ?_, h1⟩
  · unfold getNumberOfSharesToInvest
    rw [hp]
    show some (pyInt (money / p)) = some ⌊money / p⌋
    rw [pyInt_eq_floor _ hq]
  · calc (⌊money / p⌋ : ℚ) * p ≤ (money / p) * p :=
          mul_le_mul_of_nonneg_right h1 hpos.le
      _ = money := div_mul_cancel₀ money hpos.ne'

theorem c3_amended_witness :
    getNumberOfSharesToInvest env3 "X" 50 = some 7 ∧ ((7 : ℤ) : ℚ) * 7 ≤ 50 := by
  have hf : ⌊(50 : ℚ) / 7⌋ = (7 : ℤ) := by norm_num
  have h := c3_amended env3 "X" 7 50 rfl (by norm_num) (by norm_num)
  rw [hf] at h
  exact ⟨h.1, h.2.1⟩

/-- C4 (counterexample): the adjust phase has no zero-quantity skip.
With X held at 7 shares and a target weight that sizes X to exactly 7
shares, the pass submits an order of 0 shares of X to the executor. -/
theorem c4_counterexample :
    rebalance env4 targets4 w4 =
      Res.ok ⟨[("X", 7)], [("X", 7)], [("X", 0, "Sell")]⟩ := by
  with_unfolding_all decide

/-- C4 (amended): whenever the adjust-phase quantity is zero (the cached
position already equals the computed desired count), an order of zero
shares is still submitted to the executor (Sell when flat-or-long, Short
when short); there is no zero-quantity skip. -/
theorem c4_amended (env : Env) (targets : List (Ticker × ℚ)) (w : World)
    (t : Ticker) (weight p : ℚ) (n : ℤ)
    (hw : dictGet targets t = some weight)
    (hp : env.price t = some p)
    (hc : dictGet w.cache t = some n)
    (hn : pyInt (weight * env.value / p) = n) :
    (adjustBody env env.value targets w t).world.log =
      w.log ++ [(t, 0, if n < 0 then "Short" else "Sell")] := by
  have hra : resolveAction n n = (if n < 0 then "Short" else "Sell", 0) := by
    unfold resolveAction
    simp [lt_irrefl, sub_self]
  unfold adjustBody
  rw [dictContains_of_get targets t weight hw]
  simp only [if_true, hw]
  unfold getNumberOfSharesToInvest
  rw [hp]
  simp only [hn, hc]
  rw [hra]
  exact transaction_log env w t _ _ (by split <;> simp [STOCK_ACTIONS])

theorem c4_amended_witness :
    (adjustBody env4 env4.value targets4 ⟨[("X", 7)], [("X", 7)], []⟩ "X").world.log =
      [("X", 0, "Sell")] := by
  have h := c4_amended env4 targets4 ⟨[("X", 7)], [("X", 7)], []⟩ "X" (7/100) 10 7
    (by with_unfolding_all decide) rfl (by with_unfolding_all decide)
    (by with_unfolding_all decide)
  simpa using h

/-- C5: the code fails the idempotence claim.  With a short position
B:-5, target weights A:1, prices 10, value 1000 and every order
succeeding, the first rebalance call covers B and buys 100 A, and the
store then holds exactly A:100; but the cache refresh never removes the
closed B entry, so the second call with the same targets submits a
non-zero-quantity Cover of 5 B again (plus a zero-quantity Sell of A). -/
theorem c5_stale_cache :
    rebalance env5 targets5 w5 =
      Res.ok ⟨[("A", 100)], [("B", -5), ("A", 100)],
        [("B", 5, "Cover"), ("A", 100, "Buy")]⟩ ∧
    rebalance env5 targets5 ⟨[("A", 100)], [("B", -5), ("A", 100)], []⟩ =
      Res.ok ⟨[("A", 100), ("B", 5)], [("B", 5), ("A", 100)],
        [("B", 5, "Cover"), ("A", 0, "Sell")]⟩ :=
  ⟨by with_unfolding_all decide, by with_unfolding_all decide⟩

/-- C7 (counterexample): a holdings read that finds no table is not
fatal and is interpreted as an empty set of positions.  The store
actually holds Y:3, every read fails to parse, the cache is empty: the
pass continues on the fresh-portfolio path and buys 100 X. -/
theorem c7_counterexample :
    rebalance env7 targets7 w7 =
      Res.ok ⟨[("Y", 3), ("X", 100)], [], [("X", 100, "Buy")]⟩ := by
  with_unfolding_all decide

/-- C8 (counterexample): a failed price lookup does not skip just that
ticker.  With targets X then Y where only Y has a price, the pass
raises while sizing X and aborts: no order is ever submitted for Y (the
log is empty and the call ends in an exception). -/
theorem c8_counterexample :
    rebalance env8 targets8 emptyWorld = Res.exn ⟨[], [], []⟩ := by
  with_unfolding_all decide

/-- C9: the claim is right and the code is wrong.  A successful Cover of
5 B from a B:-5 position brings the store position to zero and the store
removes it, but the refreshed Game.positions cache still contains the
stale B:-5 record, so the stored positions do not reflect the net effect
of the executed transactions. -/
theorem c9_close_not_removed :
    transaction env9 w9 "B" 5 "Cover" =
      Res.ok ⟨[], [("B", -5)], [("B", 5, "Cover")]⟩ := by
  with_unfolding_all decide

/-- C10: Game.transaction submits nothing and leaves the cache unchanged
for an unrecognized action; on an executor-reported failure the order is
submitted but neither store nor cache changes (no refresh); and on a
successful submission the store is mutated and the cache is immediately
refreshed from it - after every individual successful order. -/
theorem c10_transaction (env : Env) (w : World) (t : Ticker) (q : ℤ) (a : String) :
    (a ∉ STOCK_ACTIONS → transaction env w t q a = Res.ok w) ∧
    (a ∈ STOCK_ACTIONS → env.ok w.log.length = false →
      transaction env w t q a =
        Res.ok ⟨w.holdings, w.cache, w.log ++ [(t, q, a)]⟩) ∧
    (a ∈ STOCK_ACTIONS → env.ok w.log.length = true →
      env.read = ReadResult.rows →
      transaction env w t q a =
        Res.ok ⟨applyOrder w.holdings t q a,
          updatePositionsRows (applyOrder w.holdings t q a) w.cache,
          w.log ++ [(t, q, a)]⟩) := by
  refine ⟨fun ha => transaction_not_action env w t q a ha,
    fun ha hok => ?_, fun ha hok hr => ?_⟩
  · unfold transaction
    rw [if_pos ha]
    simp [hok]
  · unfold transaction
    rw [if_pos ha]
    simp only [hok, if_true]
    unfold updatePositions
    rw [hr]

/-- C6: if current positions are empty at the start of rebalance, phases
1 and 2 are skipped entirely and, for every ticker in targetWeights,
exactly one Buy order of floor(weight * portfolioValue / price) shares
is submitted: the submitted order log is exactly the target list mapped
to those Buys. -/
theorem c6_fresh_portfolio (env : Env) (targets : List (Ticker × ℚ))
    (w : World) (P : Ticker → ℚ)
    (hread : env.read = ReadResult.rows)
    (hh : w.holdings = []) (hc : w.cache = [])
    (hnd : (dictKeys targets).Nodup)
    (hP : ∀ x ∈ targets, env.price x.1 = some (P x.1) ∧ 0 < P x.1 ∧
      0 ≤ x.2 * env.value) :
    (rebalance env targets w).world.log =
      w.log ++ targets.map (fun x => (x.1, ⌊x.2 * env.value / P x.1⌋, "Buy")) := by
  apply rebalance_fresh_log env targets w P (fun v => Or.inl (by rw [hread])) hnd hP
  unfold updatePositions
  rw [hread]
  show updatePositionsRows w.holdings w.cache = []
  rw [hh, hc]
  rfl

theorem c6_fresh_portfolio_witness :
    (rebalance env6 targets6 emptyWorld).world.log = [("X", 142, "Buy")] := by
  have hP : ∀ x ∈ targets6, env6.price x.1 = some ((fun _ => (7 : ℚ)) x.1) ∧
      0 < (fun _ => (7 : ℚ)) x.1 ∧ 0 ≤ x.2 * env6.value := by
    intro x hx
    rw [show targets6 = [("X", 1)] from rfl, List.mem_singleton] at hx
    subst hx
    exact ⟨rfl, by norm_num, by norm_num [env6]⟩
  have h := c6_fresh_portfolio env6 targets6 emptyWorld (fun _ => 7) rfl rfl rfl
    (by simp [dictKeys, targets6]) hP
  rw [h]
  norm_num [targets6, emptyWorld, env6]

/-- C7 (amended): only a transport-level failure of the holdings read is
fatal (the exception aborts the pass before any order); a response with
no parseable holdings table is treated as zero rows, the cache is left
unchanged, and on a fresh game the pass continues on the fresh-portfolio
path, interpreting the failure as an empty set of positions. -/
theorem c7_amended :
    (∀ (env : Env) (targets : List (Ticker × ℚ)) (w : World),
      env.read = (fun _ => ReadResult.connError) →
      rebalance env targets w = Res.exn w) ∧
    (∀ (env : Env) (targets : List (Ticker × ℚ)) (w : World) (P : Ticker → ℚ),
      env.read = (fun _ => ReadResult.noTable) → w.cache = [] →
      (dictKeys targets).Nodup →
      (∀ x ∈ targets, env.price x.1 = some (P x.1) ∧ 0 < P x.1 ∧
        0 ≤ x.2 * env.value) →
      (rebalance env targets w).world.log =
        w.log ++ targets.map (fun x => (x.1, ⌊x.2 * env.value / P x.1⌋, "Buy"))) := by
  constructor
  · intro env targets w h
    unfold rebalance updatePositions
    simp only [h]
    rfl
  · intro env targets w P h hc hnd hP
    apply rebalance_fresh_log env targets w P (fun v => Or.inr (by rw [h])) hnd hP
    unfold updatePositions
    rw [h]
    exact hc

theorem c7_amended_witness :
    rebalance env7a targets7 w7 = Res.exn w7 ∧
    (rebalance env7 targets7 w7).world.log = [("X", 100, "Buy")] := by
  constructor
  · exact c7_amended.1 env7a targets7 w7 rfl
  · have hP : ∀ x ∈ targets7, env7.price x.1 = some ((fun _ => (10 : ℚ)) x.1) ∧
        0 < (fun _ => (10 : ℚ)) x.1 ∧ 0 ≤ x.2 * env7.value := by
      intro x hx
      rw [show targets7 = [("X", 1)] from rfl, List.mem_singleton] at hx
      subst hx
      exact ⟨rfl, by norm_num, by norm_num [env7]⟩
    have h := c7_amended.2 env7 targets7 w7 (fun _ => 10) rfl rfl
      (by simp [dictKeys, targets7]) hP
    rw [h]
    norm_num [targets7, w7, env7]

/-- C8 (amended): a price lookup that fails to resolve raises an
unhandled error (the fallback retrievePrice method does not exist on
Stock), which aborts the rest of the rebalance pass instead of skipping
only the affected ticker: on a fresh portfolio, the targets before the
failing ticker are bought, the call ends in an exception, and no later
ticker is processed. -/
theorem c8_amended (env : Env) (targets good rest : List (Ticker × ℚ))
    (t : Ticker) (wt : ℚ) (w : World) (P : Ticker → ℚ)
    (hread : env.read = ReadResult.rows)
    (hh : w.holdings = []) (hc : w.cache = [])
    (ht : targets = good ++ (t, wt) :: rest)
    (hnd : (dictKeys targets).Nodup)
    (hP : ∀ x ∈ good, env.price x.1 = some (P x.1) ∧ 0 < P x.1 ∧
      0 ≤ x.2 * env.value)
    (hfail : env.price t = none) :
    (rebalance env targets w).isExn = true ∧
    (rebalance env targets w).world.log =
      w.log ++ good.map (fun x => (x.1, ⌊x.2 * env.value / P x.1⌋, "Buy")) := by
  have hdisj : ∀ v, env.read v = ReadResult.rows v ∨ env.read v = ReadResult.noTable :=
    fun v => Or.inl (by rw [hread])
  have hrows : updatePositionsRows w.holdings w.cache = w.cache := by
    rw [hh]
    rfl
  have h1 : updatePositions env w = Res.ok w := by
    unfold updatePositions
    rw [hread]
    show Res.ok { w with cache := updatePositionsRows w.holdings w.cache } = Res.ok w
    rw [hrows]
  obtain ⟨w2, h2, hlog2⟩ := buyFold_ok env targets P hdisj good w (fun x hx =>
    ⟨dictGet_of_mem_nodup targets x hnd (ht ▸ List.mem_append_left _ hx),
      (hP x hx).1, (hP x hx).2.1, (hP x hx).2.2⟩)
  have hgt : dictGet targets t = some wt :=
    dictGet_of_mem_nodup targets (t, wt) hnd
      (ht ▸ List.mem_append_right _ (List.mem_cons_self _ _))
  have hbt : buyTicker env env.value targets w2 t = Res.exn w2 := by
    unfold buyTicker
    rw [hgt]
    show (match getNumberOfSharesToInvest env t (wt * env.value) with
      | none => Res.exn w2
      | some n => transaction env w2 t n "Buy") = Res.exn w2
    unfold getNumberOfSharesToInvest
    rw [hfail]
  have hkeys : dictKeys targets = dictKeys good ++ (t :: dictKeys rest) := by
    rw [ht]
    simp [dictKeys]
  have hreb : rebalance env targets w = Res.exn w2 := by
    unfold rebalance
    rw [h1]
    simp only [Res.bind]
    rw [if_pos (by rw [hc]; rfl), hkeys, foldW_append, h2]
    simp only [Res.bind, foldW, hbt]
  rw [hreb]
  exact ⟨rfl, hlog2⟩

theorem c8_amended_witness :
    (rebalance env8w targets8 emptyWorld).isExn = true ∧
    (rebalance env8w targets8 emptyWorld).world.log = [("X", 50, "Buy")] := by
  have hP : ∀ x ∈ [(("X" : Ticker), (1 / 2 : ℚ))],
      env8w.price x.1 = some ((fun _ => (10 : ℚ)) x.1) ∧
      0 < (fun _ => (10 : ℚ)) x.1 ∧ 0 ≤ x.2 * env8w.value := by
    intro x hx
    rw [List.mem_singleton] at hx
    subst hx
    refine ⟨?_, by norm_num, by norm_num [env8w]⟩
    with_unfolding_all decide
  have h := c8_amended env8w targets8 [("X", 1 / 2)] [] "Y" (1 / 2) emptyWorld
    (fun _ => 10) rfl rfl rfl rfl (by simp [dictKeys, targets8]) hP
    (by with_unfolding_all decide)
  refine ⟨h.1, ?_⟩
  rw [h.2]
  norm_num [emptyWorld, env8w]

theorem c10_transaction_witness :
    transaction env9 w9 "B" 2 "Hold" = Res.ok w9 ∧
    transaction envOkFalse w9 "B" 2 "Cover" =
      Res.ok ⟨w9.holdings, w9.cache, w9.log ++ [("B", 2, "Cover")]⟩ ∧
    transaction env9 w9 "B" 2 "Cover" =
      Res.ok ⟨applyOrder w9.holdings "B" 2 "Cover",
        updatePositionsRows (applyOrder w9.holdings "B" 2 "Cover") w9.cache,
        w9.log ++ [("B", 2, "Cover")]⟩ :=
  ⟨(c10_transaction env9 w9 "B" 2 "Hold").1 (by with_unfolding_all decide),
   (c10_transaction envOkFalse w9 "B" 2 "Cover").2.1
     (by with_unfolding_all decide) rfl,
   (c10_transaction env9 w9 "B" 2 "Cover").2.2
     (by with_unfolding_all decide) rfl rfl⟩

end Pyvse
